import Mathlib

/-!
Verification of the retention/pruning core of `gitlab_migration_helper`.

Shallow embedding of `src/gitlab_migration_helper/pruning.py`,
`gitlab_utils.py` and `main.py`:
* timestamps are modelled as integers (any fixed time unit); a raw
  `created_at` string is modelled as `Option Int`: `some t` for a string
  that `datetime.strptime` parses to `t`, `none` for a malformed one;
* Python exceptions become `Except PruneError`;
* stateful behaviour that matters to the claims (in-place list mutation in
  `validate_branch_list`, generator exhaustion in
  `delete_non_protected_branch_pipelines`) is modelled with explicit state.
-/

namespace GitlabMigrationHelper

/-- Errors raised by the pruning core.  `emptyBranchList` and
`unknownBranch` model the two `ArgumentError`s of `validate_branch_list`;
`malformedTimestamp` models the `ValueError` of `datetime.strptime` on a
malformed `created_at`; `typeNone` models the `TypeError` Python raises on
`datetime < None` when an age comparison hits an absent cutoff. -/
inductive PruneError where
  | emptyBranchList
  | unknownBranch (name : String) (existing : List String)
  | malformedTimestamp
  | typeNone
deriving DecidableEq, Repr

/-- Decidable equality on `Except`, so that concrete runs of the model
can be checked by `decide`. -/
instance {ε α : Type} [DecidableEq ε] [DecidableEq α] :
    DecidableEq (Except ε α)
  | .error e, .error f => decidable_of_iff (e = f) (by simp)
  | .error _, .ok _ => .isFalse (fun h => Except.noConfusion h)
  | .ok _, .error _ => .isFalse (fun h => Except.noConfusion h)
  | .ok x, .ok y => decidable_of_iff (x = y) (by simp)

/-- Errors raised by pydantic when constructing a `PreservationPolicy`:
`fieldConstraint` for a field failing its `Field(gt=0)` / `Field(ge=0)`
annotation, `invalidPolicy` for the `ValueError`s of the model validator
`__check_mutual_exclusive`. -/
inductive PolicyError where
  | fieldConstraint
  | invalidPolicy
deriving DecidableEq, Repr

/-- A pipeline or release as fetched from the API
(`pruning.py`, `extract_deletion_candidates`).  `created_at` models the
timestamp string through the eyes of `strptime`; `ref` is the branch ref
(only meaningful for pipelines). -/
structure Item where
  id : Nat
  created_at : Option Int
  ref : String
deriving DecidableEq, Repr

/-- One Python day (`timedelta(days=1)`) in timestamp units
(microseconds, the resolution of `datetime`). -/
def microsecondsPerDay : Int := 86400000000

/-- `PreservationPolicy` (pruning.py lines 15-77): three optional fields.
Field types are as in the pydantic model after type coercion; the
`Field(gt=0)` / `Field(ge=0)` constraints and the model validator are
checked by `mkPreservationPolicy` below. -/
structure PreservationPolicy where
  retain_number_of_instances : Option Int
  maximum_age_in_days : Option Int
  minimum_creation_date : Option Int
deriving DecidableEq, Repr

namespace PreservationPolicy

/-- The computed property `minimum_allowed_created_at`
(pruning.py lines 43-63).  `datetime.today()` is passed in as `today`.
Mirrors the `if maximum_age_given and minimum_date_given / elif / elif /
return None` chain of the source. -/
def minimum_allowed_created_at (p : PreservationPolicy) (today : Int) :
    Option Int :=
  match p.maximum_age_in_days, p.minimum_creation_date with
  | some d, some m => some (max (today - d * microsecondsPerDay) m)
  | some d, none => some (today - d * microsecondsPerDay)
  | none, some m => some m
  | none, none => none

/-- The model validator `__check_mutual_exclusive`
(pruning.py lines 65-77), run by pydantic after field validation. -/
def check_mutual_exclusive (p : PreservationPolicy) :
    Except PolicyError PreservationPolicy :=
  let max_age_given := p.maximum_age_in_days.isSome
  let min_creation_given := p.minimum_creation_date.isSome
  let number_of_items_given := p.retain_number_of_instances.isSome
  if max_age_given || min_creation_given then
    if number_of_items_given then .error .invalidPolicy else .ok p
  else if !number_of_items_given then .error .invalidPolicy
  else .ok p

/-- Pydantic field validation for the annotations
`Annotated[int, Field(gt=0)]` on `retain_number_of_instances` and
`Annotated[int, Field(ge=0)]` on `maximum_age_in_days`. -/
def fieldsValid (p : PreservationPolicy) : Prop :=
  (∀ n ∈ p.retain_number_of_instances, 0 < n) ∧
    (∀ d ∈ p.maximum_age_in_days, 0 ≤ d)

instance (p : PreservationPolicy) : Decidable p.fieldsValid := by
  unfold fieldsValid; infer_instance

/-- Pydantic construction of a `PreservationPolicy`: field validation
first (`Field(gt=0)` / `Field(ge=0)`), then the model validator. -/
def mkPreservationPolicy (retain max_age min_date : Option Int) :
    Except PolicyError PreservationPolicy :=
  let p : PreservationPolicy := ⟨retain, max_age, min_date⟩
  if p.fieldsValid then p.check_mutual_exclusive
  else .error .fieldConstraint

/-- Count mode: `retain_number_of_instances` is set
(the branch taken at pruning.py line 158). -/
def isCountMode (p : PreservationPolicy) : Prop :=
  p.retain_number_of_instances.isSome

/-- Age mode: at least one of the two date fields is set, so
`minimum_allowed_created_at` is defined. -/
def isAgeMode (p : PreservationPolicy) : Prop :=
  p.maximum_age_in_days.isSome ∨ p.minimum_creation_date.isSome

instance (p : PreservationPolicy) : Decidable p.isCountMode := by
  unfold isCountMode; infer_instance

instance (p : PreservationPolicy) : Decidable p.isAgeMode := by
  unfold isAgeMode; infer_instance

end PreservationPolicy

/-- `datetime.strptime(x.created_at, dt_format)` applied to every fetched
item, in list order — CPython's `sorted(key=...)` computes all keys, in
input order, before comparing, so a malformed timestamp raises before any
selection happens.  Returns each item paired with its parsed timestamp. -/
def parseAll : List Item → Except PruneError (List (Item × Int))
  | [] => .ok []
  | it :: rest =>
    match it.created_at with
    | some t =>
      match parseAll rest with
      | .ok r => .ok ((it, t) :: r)
      | .error e => .error e
    | none => .error .malformedTimestamp

/-- `sorted(..., key=..., reverse=True)` (pruning.py lines 144-156):
stable sort by parsed `created_at`, most recent first.  Python's `sorted`
is a stable mergesort; `reverse=True` reverses the key comparison while
keeping equal-key elements in input order.  Python documents `sorted` as
a stable sort, and the stable sort of a list under a total preorder on
keys is a unique function of the input (output order is fully
determined: by key descending, ties by input position), so any stable
implementation embeds it; we use a structurally recursive stable
insertion sort, `insertPairDesc` below inserting after all
strictly-younger entries.  Since the recursion processes the input right
to left, an inserted element stands before equal-timestamp elements that
occur later in the input, which is exactly Python's stability. -/
def insertPairDesc (p : Item × Int) :
    List (Item × Int) → List (Item × Int)
  | [] => [p]
  | q :: qs => if p.2 < q.2 then q :: insertPairDesc p qs else p :: q :: qs

/-- The stable descending sort itself; see `insertPairDesc`. -/
def sortPairsDesc : List (Item × Int) → List (Item × Int)
  | [] => []
  | p :: rest => insertPairDesc p (sortPairsDesc rest)

/-- The sorted item list `all_candidates` of
`extract_deletion_candidates`, with timestamps dropped again. -/
def sortedByCreatedAtDesc (items : List Item) :
    Except PruneError (List Item) :=
  match parseAll items with
  | .ok parsed => .ok ((sortPairsDesc parsed).map Prod.fst)
  | .error e => .error e

/-- `extract_deletion_candidates` (pruning.py lines 116-170).  The
`project.pipelines` / `project.releases` listing is the `items` argument;
`today` is `datetime.today()` as read by `minimum_allowed_created_at`.
In the age branch the source compares against
`preservation_policy.minimum_allowed_created_at`, which is `None` when
only `retain_number_of_instances` could have been set — Python would raise
`TypeError` on that comparison, modelled by `.error .typeNone`. -/
def extract_deletion_candidates (items : List Item)
    (preservation_policy : PreservationPolicy) (today : Int) :
    Except PruneError (List Item) :=
  match parseAll items with
  | .error e => .error e
  | .ok parsed =>
  let all_candidates := sortPairsDesc parsed
  match preservation_policy.retain_number_of_instances with
  | some number_of_instances =>
    if number_of_instances < all_candidates.length then
      .ok ((all_candidates.drop number_of_instances.toNat).map Prod.fst)
    else
      .ok []
  | none =>
    match preservation_policy.minimum_allowed_created_at today with
    | some cutoff =>
      .ok ((all_candidates.filter (fun c => c.2 < cutoff)).map Prod.fst)
    | none => .error .typeNone

/-- The `branch` argument of `validate_branch_list`: a single branch name
or a list of branch names (`str | list[str]`). -/
inductive BranchArg where
  | str (s : String)
  | list (l : List String)
deriving DecidableEq, Repr

/-- Python `len(branch)`: character count of a string, length of a list. -/
def BranchArg.len : BranchArg → Nat
  | .str s => s.length
  | .list l => l.length

/-- The coercion `[branch] if isinstance(branch, str) else branch`
(pruning.py line 242).  In the list case this ALIASES the caller's list:
no copy is made. -/
def BranchArg.toList : BranchArg → List String
  | .str s => [s]
  | .list l => l

/-- The loop `for b in list(branch_list)` of `validate_branch_list`
(pruning.py lines 252-262), iterating over a snapshot of the list while
`branch_list.remove(b)` mutates the list itself.  Arguments: remaining
snapshot, current content of `branch_list`.  Returns the function result
and the final content of `branch_list` (which the caller's argument
aliases in the list case); on an exception the mutations already
performed persist. -/
def validateLoopSt (existing_branches : List String) :
    List String → List String →
      Except PruneError (List String) × List String
  | [], branch_list => (.ok branch_list, branch_list)
  | b :: rest, branch_list =>
    if b ∈ existing_branches then
      validateLoopSt existing_branches rest branch_list
    else if b = "main" ∨ b = "master" then
      validateLoopSt existing_branches rest (branch_list.erase b)
    else
      (.error (.unknownBranch b existing_branches), branch_list)

/-- `validate_branch_list` (pruning.py lines 216-263) with its frame
effect made explicit: first component is the returned value (or raised
error), second is the content of the `branch` argument after the call —
in the list case the function returns the very list object it was given,
mutated in place.  `existing_branches` is the project's branch listing. -/
def validate_branch_list_st (branch : BranchArg)
    (existing_branches : List String) :
    Except PruneError (List String) × List String :=
  if branch.len < 1 then (.error .emptyBranchList, branch.toList)
  else
    let branch_list := branch.toList
    validateLoopSt existing_branches branch_list branch_list

/-- `validate_branch_list` as seen by callers that only use the returned
value. -/
def validate_branch_list (branch : BranchArg)
    (existing_branches : List String) : Except PruneError (List String) :=
  (validate_branch_list_st branch existing_branches).1

/-- The default `exclude_branch_refs = None` handling shared by
`delete_non_protected_branch_pipelines` and `delete_branches`
(pruning.py lines 185-186 and 317-318). -/
def resolveExcludeRefs : Option BranchArg → BranchArg
  | none => .list ["main", "master"]
  | some a => a

/-- A CPython iterator/generator over already-materialised elements:
consuming it (by `list(...)` or a `for` loop) yields the remaining
elements and leaves it exhausted. -/
structure PyIterator (α : Type) where
  remaining : List α
deriving Repr

/-- `list(it)` / full `for` traversal: returns all remaining elements and
the exhausted iterator. -/
def PyIterator.consume {α : Type} (it : PyIterator α) :
    List α × PyIterator α :=
  (it.remaining, ⟨[]⟩)

/-- `delete_pipelines` (pruning.py lines 80-113).  Returns the logged
candidate list and the list of pipelines on which `.delete()` was
actually invoked. -/
def delete_pipelines (items : List Item)
    (preservation_policy : PreservationPolicy) (today : Int)
    (dry_run : Bool) : Except PruneError (List Item × List Item) :=
  match extract_deletion_candidates items preservation_policy today with
  | .error e => .error e
  | .ok pipelines_to_delete =>
    let deleted := if !dry_run then pipelines_to_delete else []
    .ok (pipelines_to_delete, deleted)

/-- `delete_releases` (pruning.py lines 266-298); same shape as
`delete_pipelines`. -/
def delete_releases (items : List Item)
    (preservation_policy : PreservationPolicy) (today : Int)
    (dry_run : Bool) : Except PruneError (List Item × List Item) :=
  match extract_deletion_candidates items preservation_policy today with
  | .error e => .error e
  | .ok releases_to_delete =>
    let deleted := if !dry_run then releases_to_delete else []
    .ok (releases_to_delete, deleted)

/-- `delete_non_protected_branch_pipelines` (pruning.py lines 173-213).
`pipelines` is the project's pipeline listing, `existing_branches` the
project's branch names (read by `validate_branch_list`).  The source
builds `deletion_candidates` as a lazy `filter(...)` generator, logs
`len(list(deletion_candidates))` — which CONSUMES the generator — and
then iterates the now-exhausted generator to delete.  Returns the logged
candidate count and the pipelines on which `.delete()` was invoked. -/
def delete_non_protected_branch_pipelines (pipelines : List Item)
    (existing_branches : List String)
    (exclude_branch_refs : Option BranchArg) (dry_run : Bool) :
    Except PruneError (Nat × List Item) :=
  let excl := resolveExcludeRefs exclude_branch_refs
  match validate_branch_list excl existing_branches with
  | .error e => .error e
  | .ok protected_list =>
    let deletion_candidates : PyIterator Item :=
      ⟨pipelines.filter (fun x => x.ref ∉ protected_list)⟩
    let (consumed, deletion_candidates) := deletion_candidates.consume
    let logged_count := consumed.length
    let (to_delete, _) := deletion_candidates.consume
    let deleted := if !dry_run then to_delete else []
    .ok (logged_count, deleted)

/-- `delete_branches` (pruning.py lines 301-344).  Branches are modelled
by their names.  Returns the logged candidate list and the branches on
which `.delete()` was invoked. -/
def delete_branches (all_branches : List String)
    (exclude_branch_refs : Option BranchArg) (dry_run : Bool) :
    Except PruneError (List String × List String) :=
  let excl := resolveExcludeRefs exclude_branch_refs
  match validate_branch_list excl all_branches with
  | .error e => .error e
  | .ok protected_branches =>
    let deletion_candidates :=
      all_branches.filter (fun b => b ∉ protected_branches)
    let deleted := if !dry_run then deletion_candidates else []
    .ok (deletion_candidates, deleted)

/-- The per-branch body of `get_rectified_branches_refs`
(gitlab_utils.py lines 101-110): `validate_branch_list` on the single
name, with `ArgumentError` caught and the branch omitted with a
warning. -/
def rectifyOne (existing_branches : List String) (branch : String) :
    List String :=
  match validate_branch_list (.str branch) existing_branches with
  | .ok v => v
  | .error _ => []

/-- `get_rectified_branches_refs` (gitlab_utils.py lines 84-114).
`existing_branches` is the project's branch listing. -/
def get_rectified_branches_refs (existing_branches : List String)
    (branches_to_validate : List String)
    (extend_with_defaults : Bool) : List String :=
  let branch_refs := branches_to_validate.foldl
    (fun acc branch => acc ++ rectifyOne existing_branches branch) []
  if extend_with_defaults then branch_refs ++ ["main", "master"]
  else branch_refs

/-- A project as read by `main` (main.py): its id, archived flag, and
listings of pipelines, releases and branch names. -/
structure ProjectData where
  id : Nat
  archived : Bool
  pipelines : List Item
  releases : List Item
  branches : List String
deriving DecidableEq, Repr

/-- The per-project body of `main` (main.py lines 86-113, the
non-prompting, pruning part): rectify branch refs, then the four deletion
steps in source order.  Any exception raised by a step propagates — the
body contains no handler.  The `validate_branch_list` call inside
`delete_non_protected_branch_pipelines` receives the
`exclude_branch_refs` list itself and mutates it in place (the aliasing
of pruning.py line 242), so the list `delete_branches` then receives is
the post-call content of that same call — computed here as the second
component of `validate_branch_list_st` on the same arguments. -/
def process_project (preservation_policy : PreservationPolicy)
    (today : Int) (preserve_branches : List String) (dry_run : Bool)
    (p : ProjectData) : Except PruneError Unit :=
  let exclude_branch_refs :=
    get_rectified_branches_refs p.branches preserve_branches true
  let mutated_exclude :=
    (validate_branch_list_st (.list exclude_branch_refs) p.branches).2
  match delete_non_protected_branch_pipelines p.pipelines p.branches
    (some (.list exclude_branch_refs)) dry_run with
  | .error e => .error e
  | .ok _ =>
  match delete_branches p.branches
    (some (.list mutated_exclude)) dry_run with
  | .error e => .error e
  | .ok _ =>
  match delete_pipelines p.pipelines preservation_policy today dry_run with
  | .error e => .error e
  | .ok _ =>
  match delete_releases p.releases preservation_policy today dry_run with
  | .error e => .error e
  | .ok _ => .ok ()

/-- The `for group_project in projects` loop of `main`
(main.py lines 68-113), with `prompt_every_project = False`.  Returns the
ids of the projects whose pruning completed; a Python exception inside
the body is uncaught and aborts the loop, modelled by the `.error`
propagating. -/
def main_loop (preservation_policy : PreservationPolicy) (today : Int)
    (preserve_branches : List String)
    (include_archived_projects : Bool) (dry_run : Bool) :
    List ProjectData → Except PruneError (List Nat)
  | [] => .ok []
  | p :: rest =>
    if p.archived && !include_archived_projects then
      main_loop preservation_policy today preserve_branches
        include_archived_projects dry_run rest
    else
      match process_project preservation_policy today preserve_branches
        dry_run p with
      | .ok _ =>
        match main_loop preservation_policy today preserve_branches
          include_archived_projects dry_run rest with
        | .ok ids => .ok (p.id :: ids)
        | .error e => .error e
      | .error e => .error e

/-! ### Supporting lemmas: parsing and sorting -/

/-- A successful `parseAll` run pairs exactly the input items, in order,
with their parsed timestamps. -/
theorem parseAll_ok_spec {items : List Item} {l : List (Item × Int)}
    (h : parseAll items = .ok l) :
    l.map Prod.fst = items ∧ ∀ q ∈ l, q.1.created_at = some q.2 := by
  induction items generalizing l with
  | nil =>
    simp only [parseAll] at h
    cases h
    simp
  | cons it rest ih =>
    cases hc : it.created_at with
    | none => simp [parseAll, hc] at h
    | some t =>
      cases hr : parseAll rest with
      | error e => simp [parseAll, hc, hr] at h
      | ok r =>
        simp only [parseAll, hc, hr] at h
        cases h
        obtain ⟨h1, h2⟩ := ih hr
        refine ⟨by simp [h1], ?_⟩
        intro q hq
        rcases List.mem_cons.mp hq with hq | hq
        · cases hq; exact hc
        · exact h2 q hq

/-- `insertPairDesc` is a permutation-preserving insertion. -/
theorem insertPairDesc_perm (q : Item × Int) (l : List (Item × Int)) :
    List.Perm (insertPairDesc q l) (q :: l) := by
  induction l with
  | nil => simp [insertPairDesc]
  | cons r rs ih =>
    by_cases h : q.2 < r.2
    · simp only [insertPairDesc, if_pos h]
      exact List.Perm.trans (ih.cons r) (List.Perm.swap q r rs)
    · simp [insertPairDesc, if_neg h]

/-- The stable descending sort is a permutation of its input. -/
theorem sortPairsDesc_perm (l : List (Item × Int)) :
    List.Perm (sortPairsDesc l) l := by
  induction l with
  | nil => simp [sortPairsDesc]
  | cons q rest ih =>
    exact List.Perm.trans (insertPairDesc_perm q (sortPairsDesc rest))
      (ih.cons q)

/-- Sorting preserves length. -/
theorem length_sortPairsDesc (l : List (Item × Int)) :
    (sortPairsDesc l).length = l.length :=
  (sortPairsDesc_perm l).length_eq

/-- Sorting preserves membership. -/
theorem mem_sortPairsDesc {q : Item × Int} {l : List (Item × Int)} :
    q ∈ sortPairsDesc l ↔ q ∈ l :=
  (sortPairsDesc_perm l).mem_iff

/-- The sorted output is in weakly decreasing timestamp order. -/
theorem sortPairsDesc_sorted (l : List (Item × Int)) :
    (sortPairsDesc l).Pairwise (fun a b => b.2 ≤ a.2) := by
  induction l with
  | nil => simp [sortPairsDesc]
  | cons q rest ih =>
    simp only [sortPairsDesc]
    have key : ∀ (s : List (Item × Int)),
        s.Pairwise (fun a b => b.2 ≤ a.2) →
        (insertPairDesc q s).Pairwise (fun a b => b.2 ≤ a.2) := by
      intro s hs
      induction s with
      | nil => simp [insertPairDesc]
      | cons r rs ihs =>
        rcases List.pairwise_cons.mp hs with ⟨hr, hrs⟩
        by_cases h : q.2 < r.2
        · simp only [insertPairDesc, if_pos h]
          refine List.pairwise_cons.mpr ⟨?_, ihs hrs⟩
          intro b hb
          rcases List.mem_cons.mp ((insertPairDesc_perm q rs).mem_iff.mp hb)
            with hb | hb
          · subst hb; exact le_of_lt h
          · exact hr b hb
        · simp only [insertPairDesc, if_neg h]
          refine List.pairwise_cons.mpr ⟨?_, hs⟩
          intro b hb
          rcases List.mem_cons.mp hb with hb | hb
          · subst hb; exact le_of_not_lt h
          · exact le_trans (hr b hb) (le_of_not_lt h)
    exact key (sortPairsDesc rest) ih

/-! ### Claim theorems: candidate selection and the effective cutoff -/

/-- C2: for a count-mode policy retaining `n` items, candidate selection
returns the empty list when `n >= len(items)`, and otherwise the list
sorted by `createdAt` descending with the first `n` entries dropped —
exactly the `len(items) - n` oldest items. -/
theorem count_mode_drops_oldest (items : List Item)
    (p : PreservationPolicy) (n today : Int) (sorted : List Item)
    (hp : p.retain_number_of_instances = some n) (hn : 0 < n)
    (hs : sortedByCreatedAtDesc items = .ok sorted) :
    extract_deletion_candidates items p today =
      .ok (if n < (items.length : Int) then sorted.drop n.toNat else []) ∧
    sorted.length = items.length ∧
    (n < (items.length : Int) →
      (sorted.drop n.toNat).length = items.length - n.toNat) := by
  cases hpa : parseAll items with
  | error e => simp [sortedByCreatedAtDesc, hpa] at hs
  | ok parsed =>
    obtain ⟨hmap, -⟩ := parseAll_ok_spec hpa
    have hplen : parsed.length = items.length := by
      rw [← hmap, List.length_map]
    have hsorted : sorted = (sortPairsDesc parsed).map Prod.fst := by
      simp only [sortedByCreatedAtDesc, hpa] at hs
      cases hs; rfl
    have hslen : sorted.length = items.length := by
      rw [hsorted, List.length_map, length_sortPairsDesc, hplen]
    have hlen2 : ((sortPairsDesc parsed).length : Int) =
        (items.length : Int) := by
      rw [length_sortPairsDesc, hplen]
    refine ⟨?_, hslen, ?_⟩
    · simp only [extract_deletion_candidates, hpa, hp, hlen2]
      by_cases hlt : n < (items.length : Int)
      · rw [if_pos hlt, if_pos hlt, hsorted, List.map_drop]
      · rw [if_neg hlt, if_neg hlt]
    · intro hlt
      rw [List.length_drop, hslen]

/-- C2 witness: with `retainCount = 3` on five items the two oldest come
back; on two items nothing does. -/
theorem count_mode_drops_oldest_witness :
    extract_deletion_candidates
        [⟨1, some 10, "m"⟩, ⟨2, some 50, "m"⟩, ⟨3, some 30, "m"⟩,
          ⟨4, some 20, "m"⟩, ⟨5, some 40, "m"⟩]
        ⟨some 3, none, none⟩ 0 =
      .ok [⟨4, some 20, "m"⟩, ⟨1, some 10, "m"⟩] ∧
    extract_deletion_candidates [⟨1, some 10, "m"⟩, ⟨2, some 50, "m"⟩]
        ⟨some 3, none, none⟩ 0 = .ok [] :=
  ⟨((count_mode_drops_oldest
      [⟨1, some 10, "m"⟩, ⟨2, some 50, "m"⟩, ⟨3, some 30, "m"⟩,
        ⟨4, some 20, "m"⟩, ⟨5, some 40, "m"⟩]
      ⟨some 3, none, none⟩ 3 0
      [⟨2, some 50, "m"⟩, ⟨5, some 40, "m"⟩, ⟨3, some 30, "m"⟩,
        ⟨4, some 20, "m"⟩, ⟨1, some 10, "m"⟩]
      rfl (by decide) (by decide)).1).trans (by decide),
    ((count_mode_drops_oldest [⟨1, some 10, "m"⟩, ⟨2, some 50, "m"⟩]
      ⟨some 3, none, none⟩ 3 0 [⟨2, some 50, "m"⟩, ⟨1, some 10, "m"⟩]
      rfl (by decide) (by decide)).1).trans (by decide)⟩

/-- C3: for an age-mode policy whose effective cutoff is `cutoff`,
candidate selection returns exactly the items created strictly before
`cutoff`; an item created exactly at `cutoff` is never a candidate. -/
theorem age_mode_strictly_older (items : List Item)
    (p : PreservationPolicy) (today cutoff : Int) (r : List Item)
    (hret : p.retain_number_of_instances = none)
    (hcut : p.minimum_allowed_created_at today = some cutoff)
    (hr : extract_deletion_candidates items p today = .ok r) :
    (∀ it, it ∈ r ↔
      it ∈ items ∧ ∃ t, it.created_at = some t ∧ t < cutoff) ∧
    (∀ it ∈ items, it.created_at = some cutoff → it ∉ r) := by
  cases hpa : parseAll items with
  | error e => simp [extract_deletion_candidates, hpa] at hr
  | ok parsed =>
    obtain ⟨hmap, hts⟩ := parseAll_ok_spec hpa
    have hrval : r = ((sortPairsDesc parsed).filter
        (fun c => decide (c.2 < cutoff))).map Prod.fst := by
      simp only [extract_deletion_candidates, hpa, hret, hcut] at hr
      cases hr; rfl
    have hmem : ∀ it : Item, it ∈ r ↔
        it ∈ items ∧ ∃ t, it.created_at = some t ∧ t < cutoff := by
      intro it
      constructor
      · intro hin
        rw [hrval] at hin
        obtain ⟨c, hc, hceq⟩ := List.mem_map.mp hin
        obtain ⟨hcs, hclt⟩ := List.mem_filter.mp hc
        have hcp : c ∈ parsed := mem_sortPairsDesc.mp hcs
        have hit : c.1 ∈ items := by
          rw [← hmap]; exact List.mem_map.mpr ⟨c, hcp, rfl⟩
        have hts' := hts c hcp
        subst hceq
        exact ⟨hit, c.2, hts', by simpa using hclt⟩
      · rintro ⟨hin, t, hct, hlt⟩
        rw [← hmap] at hin
        obtain ⟨c, hcp, hceq⟩ := List.mem_map.mp hin
        have hts' := hts c hcp
        have ht' : c.2 = t := by
          rw [hceq] at hts'
          rw [hts'] at hct
          exact (Option.some.injEq _ _ ▸ hct :)
        rw [hrval]
        refine List.mem_map.mpr ⟨c, List.mem_filter.mpr
          ⟨mem_sortPairsDesc.mpr hcp, by simpa [ht'] using hlt⟩, hceq⟩
    refine ⟨hmem, ?_⟩
    intro it hin hcat hinr
    obtain ⟨-, t, ht, hlt⟩ := (hmem it).mp hinr
    rw [hcat] at ht
    cases ht
    exact lt_irrefl _ hlt

/-- C3 witness: with cutoff 20, the item created at 10 is a candidate and
the boundary item created exactly at 20 is not. -/
theorem age_mode_strictly_older_witness :
    (⟨1, some 10, "m"⟩ : Item) ∈ ([⟨1, some 10, "m"⟩] : List Item) ∧
    (⟨2, some 20, "m"⟩ : Item) ∉ ([⟨1, some 10, "m"⟩] : List Item) :=
  ⟨((age_mode_strictly_older
      [⟨1, some 10, "m"⟩, ⟨2, some 20, "m"⟩, ⟨3, some 30, "m"⟩]
      ⟨none, none, some 20⟩ 0 20 [⟨1, some 10, "m"⟩]
      rfl (by decide) (by decide)).1 ⟨1, some 10, "m"⟩).mpr
      ⟨by decide, 10, rfl, by decide⟩,
    (age_mode_strictly_older
      [⟨1, some 10, "m"⟩, ⟨2, some 20, "m"⟩, ⟨3, some 30, "m"⟩]
      ⟨none, none, some 20⟩ 0 20 [⟨1, some 10, "m"⟩]
      rfl (by decide) (by decide)).2 ⟨2, some 20, "m"⟩ (by decide) rfl⟩

/-- C4: the derived `minimum_allowed_created_at` is the max of the
age-derived date and `minimum_creation_date` when both are set, the one
set date when only one is set, and `None` when neither date field is set
(i.e. when only `retain_number_of_instances` is set in a valid
policy). -/
theorem effective_cutoff_spec (p : PreservationPolicy) (today : Int) :
    (∀ d m, p.maximum_age_in_days = some d →
      p.minimum_creation_date = some m →
      p.minimum_allowed_created_at today =
        some (max (today - d * microsecondsPerDay) m)) ∧
    (∀ d, p.maximum_age_in_days = some d →
      p.minimum_creation_date = none →
      p.minimum_allowed_created_at today =
        some (today - d * microsecondsPerDay)) ∧
    (∀ m, p.maximum_age_in_days = none →
      p.minimum_creation_date = some m →
      p.minimum_allowed_created_at today = some m) ∧
    (p.maximum_age_in_days = none → p.minimum_creation_date = none →
      p.minimum_allowed_created_at today = none) := by
  refine ⟨?_, ?_, ?_, ?_⟩ <;> intros <;>
    simp [PreservationPolicy.minimum_allowed_created_at, *]

/-- C4 witness: with `maxAgeDays = 10` and a `minimum_creation_date`
after `today - 10` days, the later date wins; with it before, the
age-derived date wins; single-field and count-only cases evaluate as
claimed. -/
theorem effective_cutoff_spec_witness :
    PreservationPolicy.minimum_allowed_created_at
        ⟨none, some 10, some 5⟩ 864000000001 = some 5 ∧
    PreservationPolicy.minimum_allowed_created_at
        ⟨none, some 10, some (-7)⟩ 864000000001 = some 1 ∧
    PreservationPolicy.minimum_allowed_created_at
        ⟨none, some 10, none⟩ 864000000001 = some 1 ∧
    PreservationPolicy.minimum_allowed_created_at
        ⟨none, none, some 5⟩ 864000000001 = some 5 ∧
    PreservationPolicy.minimum_allowed_created_at
        ⟨some 4, none, none⟩ 864000000001 = none :=
  ⟨((effective_cutoff_spec ⟨none, some 10, some 5⟩ 864000000001).1
      10 5 rfl rfl).trans (by decide),
    ((effective_cutoff_spec ⟨none, some 10, some (-7)⟩ 864000000001).1
      10 (-7) rfl rfl).trans (by decide),
    ((effective_cutoff_spec ⟨none, some 10, none⟩ 864000000001).2.1
      10 rfl rfl).trans (by decide),
    (effective_cutoff_spec ⟨none, none, some 5⟩ 864000000001).2.2.1
      5 rfl rfl,
    (effective_cutoff_spec ⟨some 4, none, none⟩ 864000000001).2.2.2
      rfl rfl⟩

/-- C5: over field-valid inputs (a positive retain count, a non-negative
age — what pydantic's field validation admits), construction fails, and
then with `InvalidPolicy`, exactly when `retain_number_of_instances` is
set together with a date field or when no field at all is set; every
successfully constructed policy is in exactly one of count mode and age
mode. -/
theorem policy_construction_spec (retain max_age min_date : Option Int)
    (hr : ∀ n ∈ retain, 0 < n) (ha : ∀ d ∈ max_age, 0 ≤ d) :
    ((∃ e, PreservationPolicy.mkPreservationPolicy retain max_age min_date
        = .error e) ↔
      ((retain.isSome ∧ (max_age.isSome ∨ min_date.isSome)) ∨
        (retain = none ∧ max_age = none ∧ min_date = none))) ∧
    (∀ e, PreservationPolicy.mkPreservationPolicy retain max_age min_date
        = .error e → e = .invalidPolicy) ∧
    (∀ q, PreservationPolicy.mkPreservationPolicy retain max_age min_date
        = .ok q →
      (q.isCountMode ∧ ¬q.isAgeMode) ∨ (¬q.isCountMode ∧ q.isAgeMode)) := by
  have hv : (⟨retain, max_age, min_date⟩ :
      PreservationPolicy).fieldsValid := ⟨hr, ha⟩
  cases retain <;> cases max_age <;> cases min_date <;>
    simp_all [PreservationPolicy.mkPreservationPolicy,
      PreservationPolicy.check_mutual_exclusive,
      PreservationPolicy.isCountMode, PreservationPolicy.isAgeMode,
      PreservationPolicy.fieldsValid]

/-- C5 witness: count together with a date field fails with
`InvalidPolicy`, the all-`None` policy fails, and a pure count policy
constructs in count mode only. -/
theorem policy_construction_spec_witness :
    PreservationPolicy.mkPreservationPolicy (some 3) (some 1) none =
      .error .invalidPolicy ∧
    (∃ e, PreservationPolicy.mkPreservationPolicy none none none =
      .error e) ∧
    ((⟨some 3, none, none⟩ : PreservationPolicy).isCountMode ∧
      ¬(⟨some 3, none, none⟩ : PreservationPolicy).isAgeMode) := by
  refine ⟨?_, ?_, ?_⟩
  · have h2 := (policy_construction_spec (some 3) (some 1) none
      (by decide) (by decide)).2.1
    have h1 := (policy_construction_spec (some 3) (some 1) none
      (by decide) (by decide)).1.mpr (by simp)
    obtain ⟨e, he⟩ := h1
    rw [he, h2 e he]
  · exact (policy_construction_spec none none none
      (by simp) (by simp)).1.mpr (by simp)
  · have h3 := (policy_construction_spec (some 3) none none
      (by decide) (by simp)).2.2 ⟨some 3, none, none⟩ (by decide)
    rcases h3 with h3 | h3
    · exact h3
    · exact absurd (by decide : (⟨some 3, none, none⟩ :
        PreservationPolicy).isCountMode) h3.1

/-- C1: with `dry_run = true` none of the four deletion operations
invokes a destructive call — the deleted list is empty — while each
still computes its candidate set (the logged candidates equal the
extracted/filtered ones). -/
theorem dry_run_is_hard_gate
    (items rels pipelines : List Item) (p : PreservationPolicy)
    (today : Int) (branches all_branches : List String)
    (excl : Option BranchArg) :
    (∀ c d, delete_pipelines items p today true = .ok (c, d) →
      d = [] ∧ extract_deletion_candidates items p today = .ok c) ∧
    (∀ c d, delete_releases rels p today true = .ok (c, d) →
      d = [] ∧ extract_deletion_candidates rels p today = .ok c) ∧
    (∀ cnt d, delete_non_protected_branch_pipelines pipelines branches
        excl true = .ok (cnt, d) →
      d = [] ∧ ∃ prot,
        validate_branch_list (resolveExcludeRefs excl) branches =
          .ok prot ∧
        cnt = (pipelines.filter (fun x => x.ref ∉ prot)).length) ∧
    (∀ c d, delete_branches all_branches excl true = .ok (c, d) →
      d = [] ∧ ∃ prot,
        validate_branch_list (resolveExcludeRefs excl) all_branches =
          .ok prot ∧
        c = all_branches.filter (fun b => b ∉ prot)) := by
  refine ⟨?_, ?_, ?_, ?_⟩
  · intro c d h
    cases he : extract_deletion_candidates items p today with
    | error e => rw [delete_pipelines, he] at h; cases h
    | ok cands =>
      rw [delete_pipelines, he] at h
      injection h with hpair
      injection hpair with h1 h2
      subst h1
      subst h2
      exact ⟨rfl, rfl⟩
  · intro c d h
    cases he : extract_deletion_candidates rels p today with
    | error e => rw [delete_releases, he] at h; cases h
    | ok cands =>
      rw [delete_releases, he] at h
      injection h with hpair
      injection hpair with h1 h2
      subst h1
      subst h2
      exact ⟨rfl, rfl⟩
  · intro cnt d h
    cases he : validate_branch_list (resolveExcludeRefs excl) branches
      with
    | error e =>
      rw [delete_non_protected_branch_pipelines, he] at h; cases h
    | ok prot =>
      rw [delete_non_protected_branch_pipelines, he] at h
      injection h with hpair
      injection hpair with h1 h2
      subst h1
      subst h2
      exact ⟨rfl, prot, rfl, rfl⟩
  · intro c d h
    cases he : validate_branch_list (resolveExcludeRefs excl)
      all_branches with
    | error e => rw [delete_branches, he] at h; cases h
    | ok prot =>
      rw [delete_branches, he] at h
      injection h with hpair
      injection hpair with h1 h2
      subst h1
      subst h2
      exact ⟨rfl, prot, rfl, rfl⟩

/-- C1 witness: a concrete dry run of each of the four operations
computes candidates but deletes nothing. -/
theorem dry_run_is_hard_gate_witness :
    ([] : List Item) = [] ∧
      extract_deletion_candidates
        [⟨1, some 10, "dev"⟩, ⟨2, some 20, "dev"⟩] ⟨some 1, none, none⟩ 0
        = .ok [⟨1, some 10, "dev"⟩] := by
  refine (dry_run_is_hard_gate
    [⟨1, some 10, "dev"⟩, ⟨2, some 20, "dev"⟩] [] [] ⟨some 1, none, none⟩
    0 ["main"] ["main"] none).1 [⟨1, some 10, "dev"⟩] [] (by decide)

/-- C6 (code bug): in the source, `deletion_candidates` is a lazy
`filter` generator that the candidate-count logging call
`len(list(deletion_candidates))` exhausts, so with `dry_run = False` and
one pipeline on the unprotected branch `dev` the function identifies one
candidate and then deletes nothing. -/
theorem branch_pipeline_deletion_is_noop :
    delete_non_protected_branch_pipelines [⟨1, some 0, "dev"⟩]
      ["main", "dev"] (some (.list ["main"])) false = .ok (1, []) := by
  decide

/-! ### Supporting lemmas: the branch-validation loop -/

/-- The cumulative effect on `branch_list` of the `remove` calls the
validation loop performs while scanning `snap`: names found in the
project are left alone, missing ones have their first occurrence
erased. -/
def eraseChain (existing_branches : List String) :
    List String → List String → List String
  | [], cur => cur
  | b :: rest, cur =>
    eraseChain existing_branches rest
      (if b ∈ existing_branches then cur else cur.erase b)

/-- Erasures only ever target names missing from the project, so a head
element that exists in the project survives the whole chain. -/
theorem eraseChain_cons_mem {ex : List String} {b : String} (hb : b ∈ ex) :
    ∀ (snap cur : List String),
      eraseChain ex snap (b :: cur) = b :: eraseChain ex snap cur := by
  intro snap
  induction snap with
  | nil => intro cur; rfl
  | cons a rest ih =>
    intro cur
    by_cases ha : a ∈ ex
    · simp only [eraseChain, if_pos ha]
      exact ih cur
    · have hne : ¬(b == a) := by
        simp only [beq_iff_eq]
        intro hcontra
        exact ha (hcontra ▸ hb)
      simp only [eraseChain, if_neg ha, List.erase_cons_tail hne]
      exact ih (cur.erase a)

/-- Running the erasure chain of a list on the list itself keeps exactly
the names that exist in the project, in order. -/
theorem eraseChain_self {ex : List String} :
    ∀ l : List String,
      eraseChain ex l l = l.filter (fun b => decide (b ∈ ex)) := by
  intro l
  induction l with
  | nil => rfl
  | cons b rest ih =>
    by_cases hb : b ∈ ex
    · simp only [eraseChain, if_pos hb, eraseChain_cons_mem hb,
        List.filter_cons, decide_eq_true hb, ih]
      simp
    · simp only [eraseChain, if_neg hb, List.erase_cons_head,
        List.filter_cons]
      rw [ih]
      have hd : decide (b ∈ ex) = false := decide_eq_false hb
      rw [hd]
      simp

/-- When every requested name missing from the project is a conventional
default, the loop succeeds and its result — which is also the final
content of the mutated list — is the erasure chain. -/
theorem validateLoopSt_ok_of_defaults {ex : List String} :
    ∀ snap : List String,
      (∀ b ∈ snap, b ∉ ex → b = "main" ∨ b = "master") →
      ∀ cur, validateLoopSt ex snap cur =
        (.ok (eraseChain ex snap cur), eraseChain ex snap cur) := by
  intro snap
  induction snap with
  | nil => intro _ cur; rfl
  | cons b rest ih =>
    intro h cur
    by_cases hb : b ∈ ex
    · simp only [validateLoopSt, if_pos hb, eraseChain, if_pos hb]
      exact ih (fun x hx => h x (List.mem_cons_of_mem b hx)) cur
    · have hd : b = "main" ∨ b = "master" :=
        h b (List.mem_cons_self b rest) hb
      simp only [validateLoopSt, if_neg hb, if_pos hd, eraseChain,
        if_neg hb]
      exact ih (fun x hx => h x (List.mem_cons_of_mem b hx)) (cur.erase b)

/-- If some requested name is missing from the project and is not a
conventional default, the loop raises `unknownBranch` for such a name,
reporting the project's branch listing. -/
theorem validateLoopSt_err_spec {ex : List String} :
    ∀ (snap cur : List String),
      (∃ b ∈ snap, b ∉ ex ∧ b ≠ "main" ∧ b ≠ "master") →
      ∃ b, b ∈ snap ∧ b ∉ ex ∧ b ≠ "main" ∧ b ≠ "master" ∧
        (validateLoopSt ex snap cur).1 = .error (.unknownBranch b ex) := by
  intro snap
  induction snap with
  | nil =>
    intro cur h
    obtain ⟨b, hb, -⟩ := h
    cases hb
  | cons a rest ih =>
    intro cur h
    by_cases ha : a ∈ ex
    · obtain ⟨b, hb, hnx, hm1, hm2⟩ := h
      have hb2 : b ∈ rest := by
        rcases List.mem_cons.mp hb with rfl | hb2
        · exact absurd ha hnx
        · exact hb2
      obtain ⟨c, hc, h2, h3, h4, h5⟩ := ih cur ⟨b, hb2, hnx, hm1, hm2⟩
      refine ⟨c, List.mem_cons_of_mem a hc, h2, h3, h4, ?_⟩
      simpa [validateLoopSt, if_pos ha] using h5
    · by_cases hd : a = "main" ∨ a = "master"
      · obtain ⟨b, hb, hnx, hm1, hm2⟩ := h
        have hb2 : b ∈ rest := by
          rcases List.mem_cons.mp hb with rfl | hb2
          · rcases hd with rfl | rfl
            · exact absurd rfl hm1
            · exact absurd rfl hm2
          · exact hb2
        obtain ⟨c, hc, h2, h3, h4, h5⟩ :=
          ih (cur.erase a) ⟨b, hb2, hnx, hm1, hm2⟩
        refine ⟨c, List.mem_cons_of_mem a hc, h2, h3, h4, ?_⟩
        simpa [validateLoopSt, if_neg ha, if_pos hd] using h5
      · refine ⟨a, List.mem_cons_self a rest, ha, ?_, ?_, ?_⟩
        · intro hc; exact hd (Or.inl hc)
        · intro hc; exact hd (Or.inr hc)
        · simp [validateLoopSt, if_neg ha, if_neg hd]

/-- On success the loop's returned list is the final content of the
mutated `branch_list` (the source returns the list object itself). -/
theorem validateLoopSt_ok_alias {ex : List String} :
    ∀ (snap cur v c2 : List String),
      validateLoopSt ex snap cur = (.ok v, c2) → c2 = v := by
  intro snap
  induction snap with
  | nil =>
    intro cur v c2 h
    injection h with h1 h2
    injection h1 with h1
    rw [← h2, ← h1]
  | cons a rest ih =>
    intro cur v c2 h
    by_cases ha : a ∈ ex
    · exact ih cur v c2 (by simpa [validateLoopSt, if_pos ha] using h)
    · by_cases hd : a = "main" ∨ a = "master"
      · exact ih (cur.erase a) v c2
          (by simpa [validateLoopSt, if_neg ha, if_pos hd] using h)
      · rw [validateLoopSt, if_neg ha, if_neg hd] at h
        injection h with h1 h2
        cases h1

/-- C7: validating a requested branch list fails with the empty-list
error on an empty request; succeeds — silently dropping the
conventional `"main"`/`"master"` names — when every missing name is
conventional; and fails with `unknownBranch`, naming the branch and
reporting the existing branches, when a non-conventional name is
missing. -/
theorem validate_branch_list_spec (requested existing : List String) :
    (requested = [] →
      validate_branch_list (.list requested) existing =
        .error .emptyBranchList) ∧
    ((∀ b ∈ requested, b ∉ existing → b = "main" ∨ b = "master") →
      requested ≠ [] →
      validate_branch_list (.list requested) existing =
        .ok (requested.filter (fun b => decide (b ∈ existing)))) ∧
    ((∃ b ∈ requested, b ∉ existing ∧ b ≠ "main" ∧ b ≠ "master") →
      ∃ b, b ∈ requested ∧ b ∉ existing ∧ b ≠ "main" ∧ b ≠ "master" ∧
        validate_branch_list (.list requested) existing =
          .error (.unknownBranch b existing)) := by
  refine ⟨?_, ?_, ?_⟩
  · intro h
    subst h
    rfl
  · intro hdef hne
    have hlen : ¬ (BranchArg.list requested).len < 1 := by
      simp only [BranchArg.len]
      cases requested with
      | nil => exact absurd rfl hne
      | cons a l => simp
    rw [validate_branch_list, validate_branch_list_st, if_neg hlen]
    simp only [BranchArg.toList]
    rw [validateLoopSt_ok_of_defaults requested hdef requested,
      eraseChain_self]
  · intro hex
    have hne : requested ≠ [] := by
      rintro rfl
      obtain ⟨b, hb, -⟩ := hex
      cases hb
    have hlen : ¬ (BranchArg.list requested).len < 1 := by
      simp only [BranchArg.len]
      cases requested with
      | nil => exact absurd rfl hne
      | cons a l => simp
    obtain ⟨b, hb, h2, h3, h4, h5⟩ :=
      validateLoopSt_err_spec requested requested hex
    refine ⟨b, hb, h2, h3, h4, ?_⟩
    rw [validate_branch_list, validate_branch_list_st, if_neg hlen]
    simpa [BranchArg.toList] using h5

/-- C7 witness: a missing `"main"` is dropped silently while the
existing `"feature-x"` is kept; a missing `"feature-y"` raises
`unknownBranch`; the empty request raises the empty-list error. -/
theorem validate_branch_list_spec_witness :
    validate_branch_list (.list ["main", "feature-x"])
        ["master", "feature-x"] = .ok ["feature-x"] ∧
    validate_branch_list (.list []) ["main"] =
      .error .emptyBranchList := by
  constructor
  · have h := (validate_branch_list_spec ["main", "feature-x"]
      ["master", "feature-x"]).2.1 (by decide) (by decide)
    exact h.trans (by decide)
  · exact (validate_branch_list_spec [] ["main"]).1 rfl

/-- A single-name call of `validate_branch_list` as performed by
`get_rectified_branches_refs` keeps the name iff it is non-empty and
exists in the project; every other outcome (missing default, missing
other name, empty name) contributes nothing. -/
theorem rectifyOne_eq (ex : List String) (b : String) :
    rectifyOne ex b =
      if 1 ≤ b.length ∧ b ∈ ex then [b] else [] := by
  by_cases hlen : b.length < 1
  · have h0 : b.length = 0 := by omega
    have h1 : ¬(1 ≤ b.length ∧ b ∈ ex) := fun hc => by omega
    simp [rectifyOne, validate_branch_list, validate_branch_list_st,
      BranchArg.len, BranchArg.toList, h0, h1]
  · have h0 : ¬ b.length = 0 := by omega
    by_cases hb : b ∈ ex
    · have h1 : 1 ≤ b.length ∧ b ∈ ex := ⟨by omega, hb⟩
      simp [rectifyOne, validate_branch_list, validate_branch_list_st,
        BranchArg.len, h0, BranchArg.toList, validateLoopSt,
        if_pos hb, h1]
    · have h1 : ¬(1 ≤ b.length ∧ b ∈ ex) := fun hc => hb hc.2
      by_cases hd : b = "main" ∨ b = "master"
      · simp [rectifyOne, validate_branch_list, validate_branch_list_st,
          BranchArg.len, h0, BranchArg.toList, validateLoopSt,
          if_neg hb, if_pos hd, h1]
      · simp [rectifyOne, validate_branch_list, validate_branch_list_st,
          BranchArg.len, h0, BranchArg.toList, validateLoopSt,
          if_neg hb, if_neg hd, h1]

/-- The accumulation loop of `get_rectified_branches_refs` is a filter
append. -/
theorem rectified_foldl (ex : List String) :
    ∀ (l init : List String),
      l.foldl (fun acc branch => acc ++ rectifyOne ex branch) init =
        init ++ l.filter
          (fun b => decide (1 ≤ b.length) && decide (b ∈ ex)) := by
  intro l
  induction l with
  | nil => intro init; simp
  | cons b rest ih =>
    intro init
    simp only [List.foldl_cons, List.filter_cons]
    rw [ih, rectifyOne_eq]
    by_cases h : 1 ≤ b.length ∧ b ∈ ex
    · have hd : (decide (1 ≤ b.length) && decide (b ∈ ex)) = true := by
        simp [h.1, h.2]
      rw [if_pos h, hd]
      simp
    · have hd : (decide (1 ≤ b.length) && decide (b ∈ ex)) = false := by
        rcases not_and_or.mp h with h1 | h1 <;> simp [h1]
      rw [if_neg h, hd]
      simp

/-- C8 counterexample: requesting the existing branch `"main"` with
defaults extension yields `["main", "main", "master"]` — the result of
`get_rectified_branches_refs` can contain duplicate names, refuting the
no-duplicates guarantee. -/
theorem rectified_refs_duplicates :
    get_rectified_branches_refs ["main"] ["main"] true =
      ["main", "main", "master"] ∧
    ¬ (get_rectified_branches_refs ["main"] ["main"] true).Nodup := by
  decide

/-- C8 amended: the result of `get_rectified_branches_refs` is the
requested names that are non-empty and exist in the project, in their
requested order (a sublist of the request), followed — when
`extend_with_defaults` is true — by `"main"` and `"master"`, which are
therefore always contained then; the result may however contain
duplicates. -/
theorem rectified_refs_spec (existing requested : List String)
    (extend_with_defaults : Bool) :
    get_rectified_branches_refs existing requested
        extend_with_defaults =
      requested.filter
          (fun b => decide (1 ≤ b.length) && decide (b ∈ existing)) ++
        (if extend_with_defaults then ["main", "master"] else []) ∧
    (extend_with_defaults = true →
      "main" ∈ get_rectified_branches_refs existing requested
          extend_with_defaults ∧
      "master" ∈ get_rectified_branches_refs existing requested
          extend_with_defaults) ∧
    (requested.filter
        (fun b => decide (1 ≤ b.length) && decide (b ∈ existing))).Sublist
      requested := by
  have hfold := rectified_foldl existing requested []
  have hmain : get_rectified_branches_refs existing requested
      extend_with_defaults =
      requested.filter
          (fun b => decide (1 ≤ b.length) && decide (b ∈ existing)) ++
        (if extend_with_defaults then ["main", "master"] else []) := by
    rw [get_rectified_branches_refs, hfold]
    cases extend_with_defaults <;> simp
  refine ⟨hmain, ?_, ?_⟩
  · intro hx
    subst hx
    rw [hmain]
    constructor <;> simp
  · exact List.filter_sublist requested

/-- C8 amended witness: with `"feature-x"` existing and requested, the
result keeps it and appends the defaults. -/
theorem rectified_refs_spec_witness :
    get_rectified_branches_refs ["feature-x"] ["main", "feature-x"] true
      = ["feature-x", "main", "master"] :=
  ((rectified_refs_spec ["feature-x"] ["main", "feature-x"] true).1).trans
    (by decide)

/-- C10: in the list case `validate_branch_list` returns the very list
object it was handed, mutated in place: on success the caller's argument
afterwards equals the returned value, and for the concrete request
`["main"]` against a project without `"main"` the caller's list has
become `[]`. -/
theorem validate_branch_list_mutates_argument (l existing : List String) :
    (∀ v, (validate_branch_list_st (.list l) existing).1 = .ok v →
      (validate_branch_list_st (.list l) existing).2 = v) ∧
    (validate_branch_list_st (.list ["main"]) [] = (.ok [], []) ∧
      ([] : List String) ≠ ["main"]) := by
  refine ⟨?_, by decide, by decide⟩
  intro v hv
  by_cases hlen : (BranchArg.list l).len < 1
  · rw [validate_branch_list_st, if_pos hlen] at hv ⊢
    cases hv
  · rw [validate_branch_list_st, if_neg hlen] at hv ⊢
    exact validateLoopSt_ok_alias l l v _ (Prod.ext hv rfl)

/-- C10 witness: requesting `["main", "x"]` against a project with only
`"x"` leaves the caller's list equal to the returned `["x"]`. -/
theorem validate_branch_list_mutates_argument_witness :
    (validate_branch_list_st (.list ["main", "x"]) ["x"]).2 = ["x"] :=
  (validate_branch_list_mutates_argument ["main", "x"] ["x"]).1 ["x"]
    (by decide)

/-- C9 counterexample: a malformed pipeline timestamp in the first
project aborts the whole `main` loop — the run ends with the
propagated error and the second project, which on its own would process
fine, is never processed. -/
theorem main_loop_abort_counterexample :
    main_loop ⟨some 1, none, none⟩ 0 [] false true
        [⟨1, false, [⟨1, none, "main"⟩], [], ["main"]⟩,
          ⟨2, false, [], [], ["main"]⟩] =
      .error .malformedTimestamp ∧
    process_project ⟨some 1, none, none⟩ 0 [] true
        ⟨2, false, [], [], ["main"]⟩ = .ok () := by
  decide

/-- C9 amended: an error raised while pruning a non-skipped project —
e.g. a malformed timestamp — propagates out of the per-project loop of
`main`, aborting the batch: no project after it is processed and the
loop's outcome is that error. -/
theorem main_loop_aborts_on_project_error
    (pol : PreservationPolicy) (today : Int) (preserve : List String)
    (inc dry : Bool) (p : ProjectData) (rest : List ProjectData)
    (e : PruneError)
    (harch : (p.archived && !inc) = false)
    (herr : process_project pol today preserve dry p = .error e) :
    main_loop pol today preserve inc dry (p :: rest) = .error e := by
  rw [main_loop, harch, herr]
  simp

/-- C9 amended witness: a project with an unparsable release timestamp
aborts the loop even though two healthy projects follow. -/
theorem main_loop_aborts_witness :
    main_loop ⟨none, some 1, none⟩ 5 [] true false
        [⟨7, true, [], [⟨4, none, ""⟩], ["main"]⟩,
          ⟨8, false, [], [], ["main"]⟩, ⟨9, false, [], [], ["main"]⟩] =
      .error .malformedTimestamp :=
  main_loop_aborts_on_project_error ⟨none, some 1, none⟩ 5 [] true false
    ⟨7, true, [], [⟨4, none, ""⟩], ["main"]⟩
    [⟨8, false, [], [], ["main"]⟩, ⟨9, false, [], [], ["main"]⟩]
    .malformedTimestamp (by decide) (by decide)

end GitlabMigrationHelper

